import Mathlib

/-!
Verification of the funcr formatter of go-logr/logr (source file
`src/unnamed/part_000`, package funcr).  The Go code is shallowly embedded:
Go values handled by `Formatter.prettyWithFlags` become the inductive
`GoValue`, the formatter struct becomes the Lean structure `Formatter`,
and the runtime effects of the line builders (time.Now, runtime.Caller)
become explicit parameters.  A second, spec-side encoder `jsonEncodeValue`
models the Go standard library JSON encoding for comparison claims.
-/

namespace Funcr

/-- Lower-case hexadecimal digit, as used by Go strconv and encoding/json. -/
def lowerHex (n : Nat) : Char :=
  if n < 10 then Char.ofNat (48 + n) else Char.ofNat (87 + n)

/-- Two lower-case hex digits of a byte value. -/
def hex2 (n : Nat) : String := String.mk [lowerHex (n / 16 % 16), lowerHex (n % 16)]

/-- Four lower-case hex digits of a 16-bit value. -/
def hex4 (n : Nat) : String := hex2 (n / 256) ++ hex2 (n % 256)

/-- Eight lower-case hex digits of a 32-bit value. -/
def hex8 (n : Nat) : String := hex4 (n / 65536) ++ hex4 (n % 65536)

/-- Go strconv.IsPrint.  For runes up to 0xFF this follows the Go code
exactly (printable ASCII, plus Latin-1 0xA1-0xFF except soft hyphen 0xAD).
Above 0xFF Go consults its Unicode tables; that region is outside every
input used in this development and is approximated as printable. -/
def goIsPrint (c : Char) : Bool :=
  let n := c.toNat
  if n ≤ 0xFF then
    if 0x20 ≤ n ∧ n ≤ 0x7E then true
    else if 0xA1 ≤ n ∧ n ≤ 0xFF then decide (n ≠ 0xAD)
    else false
  else true

/-- One rune of Go strconv.Quote (appendEscapedRune with quote = '"',
no ASCII-only or graphic-only restriction).  Rune comparisons are written
over the code point `c.toNat`; 34 is the double quote, 92 the backslash. -/
def goQuoteChar (c : Char) : String :=
  let n := c.toNat
  if n = 34 ∨ n = 92 then String.mk [Char.ofNat 92, c]
  else if goIsPrint c then String.mk [c]
  else if n = 7 then "\\a"
  else if n = 8 then "\\b"
  else if n = 12 then "\\f"
  else if n = 10 then "\\n"
  else if n = 13 then "\\r"
  else if n = 9 then "\\t"
  else if n = 11 then "\\v"
  else if n < 0x20 ∨ n = 0x7F then "\\x" ++ hex2 n
  else if n < 0x10000 then "\\u" ++ hex4 n
  else "\\U" ++ hex8 n

/-- Go strconv.Quote of a string of unicode scalar values (valid UTF-8;
invalid byte sequences are not representable in this embedding). -/
def goQuote (s : String) : String :=
  "\"" ++ String.join (s.data.map goQuoteChar) ++ "\""

/-- Modelled from the spec: one rune of the Go standard library JSON string
encoder (encoding/json, with its default HTML escaping), the comparison
target of the byte-identity claims.  For ASCII it emits the rune unless it
is a control character, the quote, the backslash, or one of the
HTML-escaped runes 0x3C 0x3E 0x26; above ASCII only U+2028 and U+2029 are
escaped. -/
def jsonQuoteChar (c : Char) : String :=
  let n := c.toNat
  if n < 0x80 then
    if 0x20 ≤ n ∧ n ≠ 34 ∧ n ≠ 92 ∧ n ≠ 60 ∧ n ≠ 62 ∧ n ≠ 38 then String.mk [c]
    else if n = 92 then "\\\\"
    else if n = 34 then "\\\""
    else if n = 10 then "\\n"
    else if n = 13 then "\\r"
    else if n = 9 then "\\t"
    else "\\u00" ++ hex2 n
  else if n = 0x2028 then "\\u2028"
  else if n = 0x2029 then "\\u2029"
  else String.mk [c]

/-- Modelled from the spec: the Go standard library JSON encoding of a
string value. -/
def jsonQuote (s : String) : String :=
  "\"" ++ String.join (s.data.map jsonQuoteChar) ++ "\""

/-- A Go value as seen by `Formatter.prettyWithFlags` through reflection.
Struct fields carry (field name, optional json tag, exported?, anonymous?,
value), mirroring reflect.StructField.Name / .Tag.Lookup("json") /
.PkgPath == "" / .Anonymous.  `str` is Go's plain `string` type (named
string types, floats, complex numbers and the Marshaler/Stringer/error
hooks are outside the modelled fragment); `vnil` is the untyped nil
interface (reflect.TypeOf == nil); `ptr` covers both reflect.Ptr and
reflect.Interface.  Signed integer kinds collapse to `int`, unsigned
kinds to `uint` (all format in base 10). -/
inductive GoValue : Type where
  | bool (b : Bool)
  | str (s : String)
  | int (n : Int)
  | uint (n : Nat)
  | vnil
  | struct (fields : List (String × Option String × Bool × Bool × GoValue))
  | arr (elems : List GoValue)
  | map (entries : List (GoValue × GoValue))
  | ptr (v : Option GoValue)

/-- Go funcr.isEmpty, the omitempty test: zero length for
strings/arrays/slices/maps, false, numeric zero, nil pointer/interface;
anything else (structs) is not empty.  `vnil` can only occur as the
content of an interface-typed field, whose reflect kind is Interface with
IsNil true. -/
def goIsEmpty : GoValue → Bool
  | GoValue.str s => s.data.isEmpty
  | GoValue.arr vs => vs.isEmpty
  | GoValue.map es => es.isEmpty
  | GoValue.bool b => !b
  | GoValue.int n => n == 0
  | GoValue.uint n => n == 0
  | GoValue.ptr p => p.isNone
  | GoValue.vnil => true
  | GoValue.struct _ => false

/-- Go strings.Contains (substring search). -/
def goContains (pat : List Char) : List Char → Bool
  | [] => pat.isEmpty
  | c :: rest => List.isPrefixOf pat (c :: rest) || goContains pat rest

/-- Result of the json-tag block of the struct case of prettyWithFlags:
either the field is skipped outright (tag "-"), or it is rendered under a
name override (empty = use the field's own name) with an omitempty flag. -/
inductive TagInfo : Type where
  | skip
  | use (name : String) (oe : Bool)

/-- The json-tag handling of the struct case of prettyWithFlags: tag "-"
skips the field; with a comma, the part before the comma (if nonempty) is
the name and omitempty is searched among the remaining comma-separated
options; without a comma the whole tag is the name. -/
def goTagInfo : Option String → TagInfo
  | none => TagInfo.use "" false
  | some tag =>
    if tag = "-" then TagInfo.skip
    else
      match tag.data.findIdx? (fun c => c = ',') with
      | some comma =>
        let n := String.mk (tag.data.take comma)
        let name := if n = "" then "" else n
        let rest := tag.data.drop comma
        let oe := goContains ",omitempty,".data rest || List.isSuffixOf ",omitempty".data rest
        TagInfo.use name oe
      | none => TagInfo.use tag false

/-- Go funcr flag: do not print quotes on strings. -/
def flagRawString : Nat := 1

/-- Go funcr flag: do not print braces on structs. -/
def flagRawStruct : Nat := 2

mutual
/-- Go Formatter.prettyWithFlags.  The Formatter receiver is unused by the
Go function, so it is dropped here.  Struct fields are iterated in
declaration order; the comma before a field is written whenever the
field's index is positive (faithfully reproducing the Go loop, which does
not track whether an earlier field was actually rendered). -/
def prettyWithFlags (value : GoValue) (flags : Nat) : String :=
  match value with
  | GoValue.bool b => if b then "true" else "false"
  | GoValue.str s => if flags &&& flagRawString > 0 then s else goQuote s
  | GoValue.int n => toString n
  | GoValue.uint n => toString n
  | GoValue.vnil => "null"
  | GoValue.struct flds =>
      (if flags &&& flagRawStruct = 0 then "\x7b" else "")
      ++ prettyStructFields flds flags 0
      ++ (if flags &&& flagRawStruct = 0 then "\x7d" else "")
  | GoValue.arr vs => "[" ++ prettyElems vs 0 ++ "]"
  | GoValue.map es => "\x7b" ++ prettyMapEntries es 0 ++ "\x7d"
  | GoValue.ptr none => "null"
  | GoValue.ptr (some v) => prettyWithFlags v 0

/-- The field loop of the struct case of prettyWithFlags; `i` is the Go
loop index (counting skipped fields too). -/
def prettyStructFields (flds : List (String × Option String × Bool × Bool × GoValue))
    (flags : Nat) (i : Nat) : String :=
  match flds with
  | [] => ""
  | (nm, tag, ex, anon, v) :: rest =>
    if ex = false then prettyStructFields rest flags (i + 1)
    else
      match goTagInfo tag with
      | TagInfo.skip => prettyStructFields rest flags (i + 1)
      | TagInfo.use name oe =>
        if oe && goIsEmpty v then prettyStructFields rest flags (i + 1)
        else
          (if i > 0 then "," else "")
          ++ (match anon, name, v with
              | true, "", GoValue.struct fs =>
                  prettyWithFlags (GoValue.struct fs) (flags ||| flagRawStruct)
              | _, name2, v2 =>
                  "\"" ++ (if name2 = "" then nm else name2) ++ "\":"
                  ++ prettyWithFlags v2 0)
          ++ prettyStructFields rest flags (i + 1)

/-- The element loop of the slice/array case of prettyWithFlags. -/
def prettyElems (vs : List GoValue) (i : Nat) : String :=
  match vs with
  | [] => ""
  | v :: rest =>
      (if i > 0 then "," else "") ++ prettyWithFlags v 0 ++ prettyElems rest (i + 1)

/-- The entry loop of the map case of prettyWithFlags: keys are rendered
raw inside explicit quotes, values recursively. -/
def prettyMapEntries (es : List (GoValue × GoValue)) (i : Nat) : String :=
  match es with
  | [] => ""
  | (k, v) :: rest =>
      (if i > 0 then "," else "")
      ++ "\"" ++ prettyWithFlags k flagRawString ++ "\":" ++ prettyWithFlags v 0
      ++ prettyMapEntries rest (i + 1)
end

/-- Go Formatter.pretty. -/
def pretty (value : GoValue) : String := prettyWithFlags value 0

mutual
/-- Modelled from the spec: the Go standard library JSON encoding of a
`GoValue`, the comparison target of the render-equals-JSON claims.  Field
tags are interpreted with the same (equivalent) tag grammar, struct fields
are emitted in declaration order with a comma exactly between two emitted
fragments, and an anonymous struct field without a name override is
spliced inline.  Map entries are emitted in list order (encoding/json
sorts map keys; the spec leaves map ordering unguaranteed, so map values
are kept out of the comparison theorems). -/
def jsonEncodeValue : GoValue → String
  | GoValue.bool b => if b then "true" else "false"
  | GoValue.str s => jsonQuote s
  | GoValue.int n => toString n
  | GoValue.uint n => toString n
  | GoValue.vnil => "null"
  | GoValue.ptr none => "null"
  | GoValue.ptr (some v) => jsonEncodeValue v
  | GoValue.struct flds =>
      "\x7b" ++ String.intercalate "," (jsonFieldFrags flds) ++ "\x7d"
  | GoValue.arr vs => "[" ++ String.intercalate "," (jsonElemFrags vs) ++ "]"
  | GoValue.map es => "\x7b" ++ String.intercalate "," (jsonMapFrags es) ++ "\x7d"

/-- Modelled from the spec: the name:value fragments of a JSON-encoded
struct, with anonymous-field fragments spliced inline. -/
def jsonFieldFrags : List (String × Option String × Bool × Bool × GoValue) → List String
  | [] => []
  | (nm, tag, ex, anon, v) :: rest =>
    if ex = false then jsonFieldFrags rest
    else
      match goTagInfo tag with
      | TagInfo.skip => jsonFieldFrags rest
      | TagInfo.use name oe =>
        if oe && goIsEmpty v then jsonFieldFrags rest
        else
          match anon, name, v with
          | true, "", GoValue.struct fs => jsonFieldFrags fs ++ jsonFieldFrags rest
          | _, name2, v2 =>
              (jsonQuote (if name2 = "" then nm else name2) ++ ":" ++ jsonEncodeValue v2)
              :: jsonFieldFrags rest

/-- Modelled from the spec: JSON-encoded array elements. -/
def jsonElemFrags : List GoValue → List String
  | [] => []
  | v :: rest => jsonEncodeValue v :: jsonElemFrags rest

/-- Modelled from the spec: JSON-encoded map entries, keys as quoted
strings. -/
def jsonMapFrags : List (GoValue × GoValue) → List String
  | [] => []
  | (GoValue.str k, v) :: rest => (jsonQuote k ++ ":" ++ jsonEncodeValue v) :: jsonMapFrags rest
  | (k, v) :: rest =>
      ("\"" ++ jsonEncodeValue k ++ "\":" ++ jsonEncodeValue v) :: jsonMapFrags rest
end

/-- Go funcr outputFormat. -/
inductive OutputFormat : Type where
  | keyValue
  | json
deriving DecidableEq

/-- Go funcr MessageClass (caller-attribution policy). -/
inductive MessageClass : Type where
  | None
  | All
  | Info
  | Error
deriving DecidableEq

/-- Go funcr Options. -/
structure Options : Type where
  logCaller : MessageClass
  logTimestamp : Bool
  verbosity : Int

/-- Go funcr Formatter.  `pfx` is the Go field `prefix` (the accumulated
slash-joined name). -/
structure Formatter : Type where
  outputFormat : OutputFormat
  pfx : String
  values : List GoValue
  valuesStr : String
  depth : Int
  logCaller : MessageClass
  logTimestamp : Bool
  verbosity : Int

/-- Go funcr newFormatter. -/
def newFormatter (opts : Options) (outfmt : OutputFormat) : Formatter :=
  { outputFormat := outfmt
    pfx := ""
    values := []
    valuesStr := ""
    depth := 0
    logCaller := opts.logCaller
    logTimestamp := opts.logTimestamp
    verbosity := opts.verbosity }

/-- Go funcr NewFormatter (key=value output). -/
def NewFormatter (opts : Options) : Formatter := newFormatter opts OutputFormat.keyValue

/-- Go funcr NewFormatterJSON (strict JSON output). -/
def NewFormatterJSON (opts : Options) : Formatter := newFormatter opts OutputFormat.json

/-- The key of one kv pair: the Go type assertion `kvList[i].(string)`,
falling back to the constant escape token for non-string keys. -/
def keyString : GoValue → String
  | GoValue.str s => s
  | _ => "<non-string-key>"

/-- The sentinel padding at the top of Formatter.flatten: an odd kvList
gets "<no-value>" appended so the last key still renders. -/
def padKV (kvList : List GoValue) : List GoValue :=
  if kvList.length % 2 ≠ 0 then kvList ++ [GoValue.str "<no-value>"] else kvList

/-- Consecutive (key, value) pairs of a kv list (even-length by padding). -/
def toPairs : List GoValue → List (GoValue × GoValue)
  | k :: v :: rest => (k, v) :: toPairs rest
  | _ => []

/-- The separator written between two pairs (source: ',' for JSON output,
' ' otherwise). -/
def pairSep (fmt : OutputFormat) : String :=
  if fmt = OutputFormat.json then "," else " "

/-- The separator written between a key and its value (source: ':' for
JSON output, '=' otherwise). -/
def kvSep (fmt : OutputFormat) : String :=
  if fmt = OutputFormat.json then ":" else "="

/-- The pair loop of Formatter.flatten: the leading separator is written
when the pair's index is positive or `continuing` holds, i.e. for every
pair past the first and for the first one iff `continuing`. -/
def flattenPairs (fmt : OutputFormat) : List (GoValue × GoValue) → Bool → String
  | [], _ => ""
  | (k, v) :: rest, continuing =>
      (if continuing then pairSep fmt else "")
      ++ "\"" ++ keyString k ++ "\"" ++ kvSep fmt ++ pretty v
      ++ flattenPairs fmt rest true

/-- Go Formatter.flatten (the buffer becomes the returned string). -/
def Formatter.flatten (f : Formatter) (kvList : List GoValue) (continuing : Bool) : String :=
  flattenPairs f.outputFormat (toPairs (padKV kvList)) continuing

/-- Go Formatter.render: builtins, then the pre-rendered saved values,
then the per-call args, with an outer brace pair in JSON mode. -/
def Formatter.render (f : Formatter) (builtins args : List GoValue) : String :=
  let s0 := if f.outputFormat = OutputFormat.json then "\x7b" else ""
  let s1 := s0 ++ Formatter.flatten f builtins false
  let continuing : Bool := decide (builtins.length > 0)
  let s2 := if f.valuesStr.length > 0 then
      s1 ++ (if continuing then pairSep f.outputFormat else "") ++ f.valuesStr
    else s1
  let continuing2 : Bool := if f.valuesStr.length > 0 then true else continuing
  (s2 ++ Formatter.flatten f args continuing2)
  ++ (if f.outputFormat = OutputFormat.json then "\x7d" else "")

/-- Go Formatter.Enabled. -/
def Formatter.Enabled (f : Formatter) (level : Int) : Bool :=
  decide (level ≤ f.verbosity)

/-- Go funcr callerID, already resolved (runtime.Caller is an effect; the
line builders below take the resolved record as a parameter). -/
structure CallerID : Type where
  file : String
  line : Int

/-- The callerID struct as a renderable value: two exported fields with
json tags "file" and "line". -/
def callerValue (c : CallerID) : GoValue :=
  GoValue.struct [("File", some "file", true, false, GoValue.str c.file),
                  ("Line", some "line", true, false, GoValue.int c.line)]

/-- The loggable form of the error argument of Error: its description
string, or the untyped nil interface when no error was supplied. -/
def errValue : Option String → GoValue
  | some e => GoValue.str e
  | none => GoValue.vnil

/-- Go Formatter.FormatInfo.  `now` is the already-formatted timestamp
(time.Now effect) and `cal` the already-resolved caller record. -/
def Formatter.FormatInfo (f : Formatter) (now : String) (cal : CallerID)
    (level : Int) (msg : String) (kvList : List GoValue) : String × String :=
  let args : List GoValue := []
  let pfx0 := f.pfx
  let args := if f.outputFormat = OutputFormat.json
    then args ++ [GoValue.str "logger", GoValue.str pfx0] else args
  let pfx1 := if f.outputFormat = OutputFormat.json then "" else pfx0
  let args := if f.logTimestamp then args ++ [GoValue.str "ts", GoValue.str now] else args
  let args := if f.logCaller = MessageClass.All ∨ f.logCaller = MessageClass.Info
    then args ++ [GoValue.str "caller", callerValue cal] else args
  let args := args ++ [GoValue.str "level", GoValue.int level, GoValue.str "msg", GoValue.str msg]
  (pfx1, Formatter.render f args kvList)

/-- Go Formatter.FormatError.  Note: the Go function computes the local
`prefix` (cleared in JSON mode) exactly like FormatInfo but then returns
`f.prefix` instead of that local, so the accumulated name is returned as
the external prefix even in JSON mode. -/
def Formatter.FormatError (f : Formatter) (now : String) (cal : CallerID)
    (err : Option String) (msg : String) (kvList : List GoValue) : String × String :=
  let args : List GoValue := []
  let pfx0 := f.pfx
  let args := if f.outputFormat = OutputFormat.json
    then args ++ [GoValue.str "logger", GoValue.str pfx0] else args
  let _pfx1 := if f.outputFormat = OutputFormat.json then "" else pfx0
  let args := if f.logTimestamp then args ++ [GoValue.str "ts", GoValue.str now] else args
  let args := if f.logCaller = MessageClass.All ∨ f.logCaller = MessageClass.Error
    then args ++ [GoValue.str "caller", callerValue cal] else args
  let args := args ++ [GoValue.str "msg", GoValue.str msg]
  let args := args ++ [GoValue.str "error", errValue err]
  (f.pfx, Formatter.render f args kvList)

/-- Go Formatter.AddName: append "/" when a prefix exists, then append
the name. -/
def Formatter.AddName (f : Formatter) (name : String) : Formatter :=
  if f.pfx.length > 0 then { f with pfx := f.pfx ++ "/" ++ name }
  else { f with pfx := f.pfx ++ name }

/-- Go Formatter.AddValues: append the pairs to the saved values (the Go
three-index slice expression forces a copy of the backing array, so the
receiver's own list is what is extended) and eagerly pre-render them. -/
def Formatter.AddValues (f : Formatter) (kvList : List GoValue) : Formatter :=
  let newValues := f.values ++ kvList
  let f1 := { f with values := newValues }
  { f1 with valuesStr := Formatter.flatten f1 newValues false }

/-- Go Formatter.AddCallDepth. -/
def Formatter.AddCallDepth (f : Formatter) (depth : Int) : Formatter :=
  { f with depth := f.depth + depth }

/-- A Go value with explicit pointer indirection, for the termination
claim: unlike `GoValue`, whose pointers hold their pointee inductively
(hence only finite trees), `HValue` pointers reference a heap address, so
the self-referential value graphs that Go pointers can build (x.P = &x)
are representable. -/
inductive HValue : Type where
  | hbool (b : Bool)
  | hint (n : Int)
  | hstr (s : String)
  | hptr (addr : Option Nat)
  | hstruct (fields : List (String × HValue))

/-- A heap of values; a pointer address is an index into this list. -/
abbrev Heap : Type := List HValue

mutual
/-- Formatter.prettyWithFlags on heap values (restricted to the
bool/int/string/pointer/plain-struct fragment, which is what the
recursion structure depends on), instrumented with fuel: every recursive
call of the Go function consumes one unit, and `none` means the
computation did not complete within the given recursion budget.  The
pointer case mirrors `return f.pretty(v.Elem().Interface())`, the struct
case the field loop with its index-based comma. -/
def prettyFuel (hp : Heap) : Nat → HValue → Option String
  | 0, _ => none
  | _ + 1, HValue.hbool b => some (if b then "true" else "false")
  | _ + 1, HValue.hint n => some (toString n)
  | _ + 1, HValue.hstr s => some (goQuote s)
  | _ + 1, HValue.hptr none => some "null"
  | fuel + 1, HValue.hptr (some a) =>
      match hp.get? a with
      | none => some "null"
      | some v => prettyFuel hp fuel v
  | fuel + 1, HValue.hstruct flds =>
      match prettyFuelFields hp fuel flds 0 with
      | none => none
      | some body => some ("\x7b" ++ body ++ "\x7d")
termination_by fuel _ => (fuel, 0)

/-- The field loop of the struct case of `prettyFuel`. -/
def prettyFuelFields (hp : Heap) : Nat → List (String × HValue) → Nat → Option String
  | _, [], _ => some ""
  | fuel, (nm, v) :: rest, i =>
      match prettyFuel hp fuel v with
      | none => none
      | some s =>
        match prettyFuelFields hp fuel rest (i + 1) with
        | none => none
        | some r => some ((if i > 0 then "," else "") ++ "\"" ++ nm ++ "\":" ++ s ++ r)
termination_by fuel l _ => (fuel, l.length + 1)
end

/-- Rendering a heap value terminates: some recursion budget suffices. -/
def RendersWithin (hp : Heap) (v : HValue) : Prop :=
  ∃ n s, prettyFuel hp n v = some s

mutual
/-- A heap value with no non-nil pointer indirection (a finite tree). -/
def ptrFree : HValue → Bool
  | HValue.hbool _ => true
  | HValue.hint _ => true
  | HValue.hstr _ => true
  | HValue.hptr none => true
  | HValue.hptr (some _) => false
  | HValue.hstruct flds => ptrFreeFields flds

/-- `ptrFree` over a field list. -/
def ptrFreeFields : List (String × HValue) → Bool
  | [] => true
  | (_, v) :: rest => ptrFree v && ptrFreeFields rest
end

mutual
/-- Nesting height of a heap value (pointers not followed). -/
def hheight : HValue → Nat
  | HValue.hstruct flds => hheightFields flds + 1
  | _ => 0

/-- Maximum `hheight` over a field list. -/
def hheightFields : List (String × HValue) → Nat
  | [] => 0
  | (_, v) :: rest => max (hheight v) (hheightFields rest)
end

/-- The Go value graph `type T struct \x7b P *T \x7d; x.P = &x`: one heap
cell whose single field points back at the cell itself. -/
def cycVal : HValue := HValue.hstruct [("P", HValue.hptr (some 0))]

/-- The heap containing `cycVal` at address 0. -/
def cycHeap : Heap := [cycVal]

mutual
/-- The heap addresses referenced by the non-nil pointers of a value. -/
def ptrTargets : HValue → List Nat
  | HValue.hptr (some a) => [a]
  | HValue.hstruct flds => ptrTargetsFields flds
  | _ => []

/-- `ptrTargets` over a field list. -/
def ptrTargetsFields : List (String × HValue) → List Nat
  | [] => []
  | (_, v) :: rest => ptrTargets v ++ ptrTargetsFields rest
end

/-- The rank function `r` witnesses that the heap's pointer graph is
acyclic: every pointer stored in a heap cell references a cell of
strictly smaller rank. -/
def AcyclicRank (hp : Heap) (r : Nat → Nat) : Prop :=
  ∀ a v, hp.get? a = some v → ∀ b ∈ ptrTargets v, r b < r a

/-- A heap whose pointer graph has no cycle: some rank function decreases
across every stored pointer. -/
def Acyclic (hp : Heap) : Prop := ∃ r, AcyclicRank hp r

/-- Configuration fields (output mode, caller policy, timestamp flag,
verbosity threshold) of two formatter states agree. -/
def sameConfig (g f : Formatter) : Prop :=
  g.outputFormat = f.outputFormat ∧ g.logCaller = f.logCaller ∧
  g.logTimestamp = f.logTimestamp ∧ g.verbosity = f.verbosity

/-- A key=value formatter with default options, for concrete scenarios. -/
def fmtKV : Formatter := NewFormatter ⟨MessageClass.None, false, 0⟩

lemma string_eq_empty_of_not_len_pos {s : String} (h : ¬ s.length > 0) : s = "" := by
  cases s with
  | mk data =>
    have hd : data = [] :=
      List.length_eq_zero.mp (by simpa [String.length] using Nat.eq_zero_of_not_pos h)
    subst hd
    rfl

/-- C7: a nil pointer or nil interface renders as exactly "null", and a
non-nil pointer renders as its dereferenced value (one dereference, then
recursion), as does the untyped nil interface. -/
theorem c7_pointer_spec :
    (∀ flags, prettyWithFlags (GoValue.ptr none) flags = "null") ∧
    prettyWithFlags GoValue.vnil 0 = "null" ∧
    (∀ x, prettyWithFlags (GoValue.ptr (some x)) 0 = prettyWithFlags x 0) := by
  refine ⟨fun flags => ?_, ?_, fun x => ?_⟩ <;> simp [prettyWithFlags]

/-- C8: AddValues yields a state whose saved values are the old saved
values followed by the new pairs and whose pre-rendered string is
recomputed from the combined list by the flattener (with respect to the
original state's configuration); every other field of the state is kept
unchanged. -/
theorem c8_addValues_spec : ∀ (f : Formatter) (p : List GoValue),
    (Formatter.AddValues f p).values = f.values ++ p ∧
    (Formatter.AddValues f p).valuesStr = Formatter.flatten f (f.values ++ p) false ∧
    (Formatter.AddValues f p).pfx = f.pfx ∧
    (Formatter.AddValues f p).depth = f.depth ∧
    sameConfig (Formatter.AddValues f p) f := by
  intro f p
  refine ⟨rfl, ?_, rfl, rfl, rfl, rfl, rfl, rfl⟩
  simp [Formatter.AddValues, Formatter.flatten]

/-- C9: Enabled is exactly the comparison of the requested level against
the configured verbosity threshold, and is therefore monotonic: enabling
a level enables every smaller level. -/
theorem c9_enabled_monotonic :
    (∀ (f : Formatter) (level : Int), Formatter.Enabled f level = decide (level ≤ f.verbosity)) ∧
    (∀ (f : Formatter) (n m : Int), m ≤ n →
      Formatter.Enabled f n = true → Formatter.Enabled f m = true) := by
  constructor
  · intro f level
    rfl
  · intro f n m hmn hn
    simp [Formatter.Enabled] at hn ⊢
    omega

/-- Witness for C9 at a concrete threshold. -/
theorem c9_enabled_monotonic_witness :
    ((2 : Int) ≤ 3) ∧ Formatter.Enabled (NewFormatter ⟨MessageClass.None, false, 3⟩) 3 = true ∧
      Formatter.Enabled (NewFormatter ⟨MessageClass.None, false, 3⟩) 2 = true :=
  ⟨by decide, by decide,
    c9_enabled_monotonic.2 (NewFormatter ⟨MessageClass.None, false, 3⟩) 3 2 (by decide) (by decide)⟩

/-- C10: each state mutator touches only its own component: AddName only
rewrites the name prefix (slash-appending when one exists, else setting
it), AddValues only the saved values and their pre-rendered string,
AddCallDepth only the depth bias (additively, so successive applications
compose); the configuration, and hence Enabled, is untouched by all
three. -/
theorem c10_mutators_frame : ∀ (f : Formatter) (name : String) (p : List GoValue) (n m : Int),
    ((Formatter.AddName f name).pfx
      = if f.pfx.length > 0 then f.pfx ++ "/" ++ name else name) ∧
    sameConfig (Formatter.AddName f name) f ∧
    (Formatter.AddName f name).values = f.values ∧
    (Formatter.AddName f name).valuesStr = f.valuesStr ∧
    (Formatter.AddName f name).depth = f.depth ∧
    (Formatter.AddValues f p).pfx = f.pfx ∧
    (Formatter.AddValues f p).depth = f.depth ∧
    sameConfig (Formatter.AddValues f p) f ∧
    (Formatter.AddCallDepth f n).depth = f.depth + n ∧
    Formatter.AddCallDepth (Formatter.AddCallDepth f n) m = Formatter.AddCallDepth f (n + m) ∧
    (Formatter.AddCallDepth f n).pfx = f.pfx ∧
    (Formatter.AddCallDepth f n).values = f.values ∧
    (Formatter.AddCallDepth f n).valuesStr = f.valuesStr ∧
    sameConfig (Formatter.AddCallDepth f n) f ∧
    (∀ l, Formatter.Enabled (Formatter.AddName f name) l = Formatter.Enabled f l) ∧
    (∀ l, Formatter.Enabled (Formatter.AddValues f p) l = Formatter.Enabled f l) ∧
    (∀ l, Formatter.Enabled (Formatter.AddCallDepth f n) l = Formatter.Enabled f l) := by
  intro f name p n m
  by_cases h : f.pfx.length > 0 <;>
    [skip; (have hempty : f.pfx = "" := string_eq_empty_of_not_len_pos h)] <;>
    cases f <;>
    simp_all [Formatter.AddName, Formatter.AddValues, Formatter.AddCallDepth,
      Formatter.Enabled, sameConfig, Int.add_assoc]

lemma padKV_cons_cons (k v : GoValue) (rest : List GoValue) :
    padKV (k :: v :: rest) = k :: v :: padKV rest := by
  have h : (k :: v :: rest).length % 2 = rest.length % 2 := by
    simp only [List.length_cons]
    omega
  by_cases h0 : rest.length % 2 = 0
  · simp only [padKV]
    rw [if_neg (by omega), if_neg (by omega)]
  · simp only [padKV]
    rw [if_pos (by omega), if_pos (by omega)]
    simp

/-- C6: flatten is total and order-preserving: an odd-length list is
flattened exactly as the list with the "<no-value>" sentinel appended (so
the final key still renders), each leading pair produces its fragment
followed by the flattening of the remainder (input order), the empty list
yields the empty fragment, string keys are used as-is, and every
non-string key is replaced by the one constant escape token. -/
theorem c6_flatten_spec :
    (∀ (f : Formatter) (kv : List GoValue) (cont : Bool), kv.length % 2 = 1 →
      Formatter.flatten f kv cont
        = Formatter.flatten f (kv ++ [GoValue.str "<no-value>"]) cont) ∧
    (∀ (f : Formatter) (k v : GoValue) (rest : List GoValue) (cont : Bool),
      Formatter.flatten f (k :: v :: rest) cont
        = (if cont then pairSep f.outputFormat else "")
          ++ "\"" ++ keyString k ++ "\"" ++ kvSep f.outputFormat ++ pretty v
          ++ Formatter.flatten f rest true) ∧
    (∀ (f : Formatter) (cont : Bool), Formatter.flatten f [] cont = "") ∧
    (∀ s, keyString (GoValue.str s) = s) ∧
    (∀ k, (∀ s, k ≠ GoValue.str s) → keyString k = "<non-string-key>") ∧
    Formatter.flatten fmtKV [GoValue.str "key"] false = "\"key\"=\"<no-value>\"" := by
  refine ⟨?_, ?_, ?_, fun s => rfl, ?_, by decide⟩
  · intro f kv cont hodd
    simp only [Formatter.flatten]
    have h1 : padKV kv = kv ++ [GoValue.str "<no-value>"] := by
      simp only [padKV]
      rw [if_pos (by omega)]
    have h2 : padKV (kv ++ [GoValue.str "<no-value>"]) = kv ++ [GoValue.str "<no-value>"] := by
      simp only [padKV]
      rw [if_neg (by simp [List.length_append]; omega)]
    rw [h1, h2]
  · intro f k v rest cont
    simp only [Formatter.flatten, padKV_cons_cons, toPairs, flattenPairs]
  · intro f cont
    simp [Formatter.flatten, padKV, toPairs, flattenPairs]
  · intro k hk
    cases k with
    | str s => exact absurd rfl (hk s)
    | _ => rfl

/-- Witness for C6 at an odd-length list. -/
theorem c6_flatten_spec_witness :
    ([GoValue.str "key"] : List GoValue).length % 2 = 1 ∧
    Formatter.flatten fmtKV [GoValue.str "key"] false
      = Formatter.flatten fmtKV [GoValue.str "key", GoValue.str "<no-value>"] false :=
  ⟨by decide, c6_flatten_spec.1 fmtKV [GoValue.str "key"] false (by decide)⟩

/-- The builtin pairs FormatError places before "msg": the "logger" field
in JSON mode, the timestamp if enabled, the caller if policy is All or
Error. -/
def errorPrefixBuiltins (f : Formatter) (now : String) (cal : CallerID) : List GoValue :=
  (if f.outputFormat = OutputFormat.json then [GoValue.str "logger", GoValue.str f.pfx] else [])
  ++ (if f.logTimestamp then [GoValue.str "ts", GoValue.str now] else [])
  ++ (if f.logCaller = MessageClass.All ∨ f.logCaller = MessageClass.Error
      then [GoValue.str "caller", callerValue cal] else [])

/-- Whether some pair of the kv list has the given (resolved) key. -/
def hasKey (kvList : List GoValue) (k : String) : Bool :=
  (toPairs kvList).any (fun p => keyString p.1 == k)

/-- C5: FormatError renders its builtins as the mode/option-dependent
leading fields followed immediately by the "msg" pair and then the
"error" pair, whose value is the error's description string or the nil
interface (rendered "null") — the field is never omitted; no "level" key
occurs among these builtins.  Concretely, Error(nil, "oops") on a plain
formatter yields the body with "error"=null. -/
theorem c5_error_field : ∀ (f : Formatter) (now : String) (cal : CallerID)
    (err : Option String) (msg : String) (kvList : List GoValue),
    Formatter.FormatError f now cal err msg kvList
      = (f.pfx, Formatter.render f
          (errorPrefixBuiltins f now cal
            ++ [GoValue.str "msg", GoValue.str msg, GoValue.str "error", errValue err]) kvList) ∧
    hasKey (errorPrefixBuiltins f now cal
            ++ [GoValue.str "msg", GoValue.str msg, GoValue.str "error", errValue err]) "level"
      = false ∧
    hasKey (errorPrefixBuiltins f now cal
            ++ [GoValue.str "msg", GoValue.str msg, GoValue.str "error", errValue err]) "error"
      = true ∧
    (errorPrefixBuiltins f now cal).length % 2 = 0 ∧
    errValue none = GoValue.vnil ∧
    pretty (errValue none) = "null" ∧
    (∀ e, errValue (some e) = GoValue.str e) ∧
    Formatter.FormatError fmtKV "" ⟨"", 0⟩ none "oops" []
      = ("", "\"msg\"=\"oops\" \"error\"=null") := by
  intro f now cal err msg kvList
  refine ⟨?_, ?_, ?_, ?_, rfl, by simp [errValue, pretty, prettyWithFlags], fun e => rfl, by decide⟩
  · simp only [Formatter.FormatError, errorPrefixBuiltins]
    split_ifs <;> simp
  · simp only [errorPrefixBuiltins]
    split_ifs <;> simp [hasKey, toPairs, keyString]
  · simp only [errorPrefixBuiltins]
    split_ifs <;> simp [hasKey, toPairs, keyString]
  · simp only [errorPrefixBuiltins]
    split_ifs <;> simp

/-- The formatter of the C3 failing input: strict-JSON output with
accumulated name "svc". -/
def fmtJSONsvc : Formatter :=
  Formatter.AddName (NewFormatterJSON ⟨MessageClass.None, false, 0⟩) "svc"

/-- C3 (bug evaluation): in StrictJSON mode both line builders fold the
accumulated name into the body as the leading "logger" field of the one
outer JSON object, and FormatInfo returns the empty external prefix —
but FormatError returns the accumulated name ("svc") as the external
prefix, contradicting the claim and the function's own documentation. -/
theorem c3_formatError_prefix_bug :
    (Formatter.FormatInfo fmtJSONsvc "" ⟨"", 0⟩ 0 "hello" []).1 = "" ∧
    (Formatter.FormatInfo fmtJSONsvc "" ⟨"", 0⟩ 0 "hello" []).2
      = "\x7b\"logger\":\"svc\",\"level\":0,\"msg\":\"hello\"\x7d" ∧
    (Formatter.FormatError fmtJSONsvc "" ⟨"", 0⟩ none "oops" []).1 = "svc" ∧
    (Formatter.FormatError fmtJSONsvc "" ⟨"", 0⟩ none "oops" []).2
      = "\x7b\"logger\":\"svc\",\"msg\":\"oops\",\"error\":null\x7d" ∧
    "svc" ≠ "" := by
  refine ⟨by decide, by decide, by decide, by decide, by decide⟩

lemma cyc_none : ∀ n, prettyFuel cycHeap n cycVal = none ∧
    prettyFuel cycHeap n (HValue.hptr (some 0)) = none := by
  intro n
  induction n with
  | zero => exact ⟨by simp [prettyFuel], by simp [prettyFuel]⟩
  | succ m ih =>
    constructor
    · simp [cycVal, prettyFuel, prettyFuelFields, ih.2]
    · simpa [prettyFuel, cycHeap] using ih.1

/-- C4 counterexample: the self-referential value graph `x.P = &x`
(expressible in Go through pointers) is rendered by no recursion budget
at all — prettyWithFlags loops forever on it, since funcr has no cycle
detection or depth limit. -/
theorem c4_cycle_diverges : ¬ RendersWithin cycHeap cycVal := by
  rintro ⟨n, s, h⟩
  rw [(cyc_none n).1] at h
  exact Option.noConfusion h

lemma fields_adequate (hp : Heap) (n : Nat)
    (hv : ∀ v : HValue, ptrFree v = true → hheight v < n → (prettyFuel hp n v).isSome = true) :
    ∀ (l : List (String × HValue)) (i : Nat), ptrFreeFields l = true → hheightFields l < n →
      (prettyFuelFields hp n l i).isSome = true := by
  intro l
  induction l with
  | nil => intro i _ _; simp [prettyFuelFields]
  | cons x rest ih =>
    intro i hpf hh
    obtain ⟨nm, v⟩ := x
    simp only [ptrFreeFields, Bool.and_eq_true] at hpf
    simp only [hheightFields, Nat.max_lt] at hh
    obtain ⟨s1, h1⟩ := Option.isSome_iff_exists.mp (hv v hpf.1 hh.1)
    obtain ⟨s2, h2⟩ := Option.isSome_iff_exists.mp (ih (i + 1) hpf.2 hh.2)
    simp [prettyFuelFields, h1, h2]

lemma value_adequate (hp : Heap) : ∀ (n : Nat) (v : HValue), ptrFree v = true →
    hheight v < n → (prettyFuel hp n v).isSome = true := by
  intro n
  induction n with
  | zero => intro v _ h; omega
  | succ m ih =>
    intro v hpf hh
    match v with
    | HValue.hbool b => simp [prettyFuel]
    | HValue.hint k => simp [prettyFuel]
    | HValue.hstr s => simp [prettyFuel]
    | HValue.hptr none => simp [prettyFuel]
    | HValue.hptr (some a) => simp [ptrFree] at hpf
    | HValue.hstruct flds =>
      have hh2 : hheightFields flds < m := by
        simp only [hheight] at hh
        omega
      have hp2 : ptrFreeFields flds = true := by simpa [ptrFree] using hpf
      obtain ⟨body, hb⟩ :=
        Option.isSome_iff_exists.mp (fields_adequate hp m ih flds 0 hp2 hh2)
      simp [prettyFuel, hb]

lemma prettyFuel_mono (hp : Heap) : ∀ (n : Nat),
    (∀ m, n ≤ m → ∀ v, (prettyFuel hp n v).isSome = true → (prettyFuel hp m v).isSome = true) ∧
    (∀ m, n ≤ m → ∀ l i, (prettyFuelFields hp n l i).isSome = true →
      (prettyFuelFields hp m l i).isSome = true) := by
  intro n
  induction n with
  | zero =>
    constructor
    · intro m _ v h
      simp [prettyFuel] at h
    · intro m _ l i h
      cases l with
      | nil => simp [prettyFuelFields]
      | cons x rest =>
        obtain ⟨nm0, v0⟩ := x
        simp [prettyFuelFields, prettyFuel] at h
  | succ n ihn =>
    obtain ⟨pn, qn⟩ := ihn
    have psucc : ∀ m, n + 1 ≤ m → ∀ v,
        (prettyFuel hp (n + 1) v).isSome = true → (prettyFuel hp m v).isSome = true := by
      intro m hm v h
      obtain ⟨m', rfl⟩ : ∃ m', m = m' + 1 := ⟨m - 1, by omega⟩
      have hm' : n ≤ m' := by omega
      match v with
      | HValue.hbool b => simp [prettyFuel]
      | HValue.hint q => simp [prettyFuel]
      | HValue.hstr s => simp [prettyFuel]
      | HValue.hptr none => simp [prettyFuel]
      | HValue.hptr (some a) =>
        cases hget : hp[a]? with
        | none => simp [prettyFuel, hget]
        | some w =>
          simp only [prettyFuel, List.get?_eq_getElem?, hget] at h ⊢
          exact pn m' hm' w h
      | HValue.hstruct flds =>
        simp only [prettyFuel] at h ⊢
        cases hf : prettyFuelFields hp n flds 0 with
        | none => rw [hf] at h; simp at h
        | some body =>
          have h2 := qn m' hm' flds 0 (by rw [hf]; rfl)
          cases hf2 : prettyFuelFields hp m' flds 0 with
          | none => rw [hf2] at h2; simp at h2
          | some b2 => simp [hf2]
    have qsucc : ∀ m, n + 1 ≤ m → ∀ l i,
        (prettyFuelFields hp (n + 1) l i).isSome = true →
        (prettyFuelFields hp m l i).isSome = true := by
      intro m hm l
      induction l with
      | nil => intro i _; simp [prettyFuelFields]
      | cons x rest ih =>
        intro i h
        obtain ⟨nm0, v0⟩ := x
        simp only [prettyFuelFields] at h ⊢
        cases hv : prettyFuel hp (n + 1) v0 with
        | none => rw [hv] at h; simp at h
        | some s =>
          rw [hv] at h
          cases hr : prettyFuelFields hp (n + 1) rest (i + 1) with
          | none => rw [hr] at h; simp at h
          | some rr =>
            have h1 := psucc m hm v0 (by rw [hv]; rfl)
            have h2 := ih (i + 1) (by rw [hr]; rfl)
            cases hv2 : prettyFuel hp m v0 with
            | none => rw [hv2] at h1; simp at h1
            | some s2 =>
              cases hr2 : prettyFuelFields hp m rest (i + 1) with
              | none => rw [hr2] at h2; simp at h2
              | some rr2 => simp [hv2, hr2]
    exact ⟨psucc, qsucc⟩

lemma fields_render (hp : Heap) :
    ∀ (l : List (String × HValue)), (∀ p ∈ l, ∃ n, (prettyFuel hp n p.2).isSome = true) →
      ∀ i, ∃ n, (prettyFuelFields hp n l i).isSome = true := by
  intro l
  induction l with
  | nil => intro _ i; exact ⟨0, by simp [prettyFuelFields]⟩
  | cons x rest ih =>
    intro hval i
    obtain ⟨n₁, h₁⟩ := hval x (List.mem_cons_self x rest)
    obtain ⟨n₂, h₂⟩ := ih (fun p hmem => hval p (List.mem_cons_of_mem x hmem)) (i + 1)
    refine ⟨max n₁ n₂, ?_⟩
    obtain ⟨nm0, v0⟩ := x
    have h₁' := (prettyFuel_mono hp n₁).1 (max n₁ n₂) (Nat.le_max_left _ _) v0 h₁
    have h₂' := (prettyFuel_mono hp n₂).2 (max n₁ n₂) (Nat.le_max_right _ _) rest (i + 1) h₂
    simp only [prettyFuelFields]
    cases hv2 : prettyFuel hp (max n₁ n₂) v0 with
    | none => rw [hv2] at h₁'; simp at h₁'
    | some s2 =>
      cases hr2 : prettyFuelFields hp (max n₁ n₂) rest (i + 1) with
      | none => rw [hr2] at h₂'; simp at h₂'
      | some rr2 => simp [hv2, hr2]

lemma mem_ptrTargetsFields {b : Nat} : ∀ (l : List (String × HValue)) (p : String × HValue),
    p ∈ l → b ∈ ptrTargets p.2 → b ∈ ptrTargetsFields l := by
  intro l
  induction l with
  | nil => intro p hmem; cases hmem
  | cons x rest ih =>
    intro p hmem hb
    obtain ⟨nm0, v0⟩ := x
    cases hmem with
    | head => simp only [ptrTargetsFields, List.mem_append]; exact Or.inl hb
    | tail _ hmem2 =>
      simp only [ptrTargetsFields, List.mem_append]
      exact Or.inr (ih p hmem2 hb)

lemma mem_le_foldr_max : ∀ (l : List Nat) (x : Nat), x ∈ l → x ≤ l.foldr max 0 := by
  intro l
  induction l with
  | nil => intro x hx; cases hx
  | cons a rest ih =>
    intro x hx
    cases hx with
    | head => exact Nat.le_max_left _ _
    | tail _ hmem => exact Nat.le_trans (ih x hmem) (Nat.le_max_right _ _)

lemma render_of_rank (hp : Heap) (r : Nat → Nat) (hA : AcyclicRank hp r) :
    ∀ (k : Nat) (v : HValue), (∀ b ∈ ptrTargets v, r b < k) →
      ∃ n, (prettyFuel hp n v).isSome = true := by
  intro k
  induction k using Nat.strong_induction_on with
  | _ k ihk =>
    have inner : ∀ (sz : Nat) (v : HValue), sizeOf v ≤ sz →
        (∀ b ∈ ptrTargets v, r b < k) → ∃ n, (prettyFuel hp n v).isSome = true := by
      intro sz
      induction sz using Nat.strong_induction_on with
      | _ sz ihm =>
        intro v hsz htg
        match v with
        | HValue.hbool b => exact ⟨1, by simp [prettyFuel]⟩
        | HValue.hint q => exact ⟨1, by simp [prettyFuel]⟩
        | HValue.hstr s => exact ⟨1, by simp [prettyFuel]⟩
        | HValue.hptr none => exact ⟨1, by simp [prettyFuel]⟩
        | HValue.hptr (some a) =>
          cases hget : hp[a]? with
          | none => exact ⟨1, by simp [prettyFuel, hget]⟩
          | some w =>
            have hget2 : hp.get? a = some w := by rw [List.get?_eq_getElem?]; exact hget
            have hra : r a < k := htg a (by simp [ptrTargets])
            obtain ⟨n, hn⟩ := ihk (r a) hra w (fun b hb => hA a w hget2 b hb)
            refine ⟨n + 1, ?_⟩
            simpa [prettyFuel, hget] using hn
        | HValue.hstruct flds =>
          have hval : ∀ p ∈ flds, ∃ n, (prettyFuel hp n p.2).isSome = true := by
            intro p hpmem
            have h1 : sizeOf p < sizeOf flds := List.sizeOf_lt_of_mem hpmem
            have h2 : sizeOf p.2 < sizeOf p := by
              obtain ⟨a, c⟩ := p
              simp
            have h3 : sizeOf flds < sizeOf (HValue.hstruct flds) := by
              simp
            exact ihm (sizeOf p.2) (by omega) p.2 (Nat.le_refl _)
              (fun b hb => htg b (by
                simpa [ptrTargets] using mem_ptrTargetsFields flds p hpmem hb))
          obtain ⟨N, hN⟩ := fields_render hp flds hval 0
          refine ⟨N + 1, ?_⟩
          simp only [prettyFuel]
          cases hf : prettyFuelFields hp N flds 0 with
          | none => rw [hf] at hN; simp at hN
          | some body => simp [hf]
    exact fun v htg => inner (sizeOf v) v (Nat.le_refl _) htg

/-- C4 amended: rendering and flattening are pure computations that never
fail or panic, and render terminates and returns a string on every
acyclic input: every value renders against a heap whose pointer graph
admits a decreasing rank function (no pointer cycle), and every
pointer-free (finite tree) value renders against any heap — the tree
fragment on which the inductive `GoValue` model's `pretty` and `flatten`
are total functions.  Cyclic graphs, in contrast, diverge (see the
counterexample). -/
theorem c4_acyclic_terminates :
    (∀ (hp : Heap) (v : HValue), Acyclic hp → RendersWithin hp v) ∧
    (∀ (hp : Heap) (v : HValue), ptrFree v = true → RendersWithin hp v) := by
  constructor
  · intro hp v hA
    obtain ⟨r, hr⟩ := hA
    obtain ⟨n, hn⟩ := render_of_rank hp r hr (((ptrTargets v).map r).foldr max 0 + 1) v
      (fun b hb => Nat.lt_succ_of_le
        (mem_le_foldr_max ((ptrTargets v).map r) (r b) (List.mem_map_of_mem r hb)))
    obtain ⟨s, hs⟩ := Option.isSome_iff_exists.mp hn
    exact ⟨n, s, hs⟩
  · intro hp v h
    obtain ⟨s, hs⟩ :=
      Option.isSome_iff_exists.mp (value_adequate hp (hheight v + 1) v h (Nat.lt_succ_self _))
    exact ⟨hheight v + 1, s, hs⟩

/-- Witness for C4: an acyclic one-cell heap through a non-nil pointer,
and a concrete pointer-free struct value. -/
theorem c4_acyclic_terminates_witness :
    Acyclic [HValue.hint 5] ∧ RendersWithin [HValue.hint 5] (HValue.hptr (some 0)) ∧
    ptrFree (HValue.hstruct [("X", HValue.hint 1)]) = true ∧
    RendersWithin [] (HValue.hstruct [("X", HValue.hint 1)]) := by
  have hA : Acyclic [HValue.hint 5] := by
    refine ⟨fun _ => 0, ?_⟩
    intro a v hv b hb
    match a, hv with
    | 0, hv =>
      simp only [List.get?] at hv
      cases hv
      simp [ptrTargets] at hb
    | a + 1, hv => simp [List.get?] at hv
  exact ⟨hA, c4_acyclic_terminates.1 [HValue.hint 5] (HValue.hptr (some 0)) hA,
    by simp [ptrFree, ptrFreeFields],
    c4_acyclic_terminates.2 [] _ (by simp [ptrFree, ptrFreeFields])⟩

/-- A struct exercising the tag directives: rename, "-" (omit), "-,"
(field named "-"), omitempty on a set and an empty string, a bare ","
tag, and omitempty on a nonzero int (mirrors TjsontagsString of the
repository's tests). -/
def tagDemoSet : GoValue := GoValue.struct [
  ("String1", some "string1", true, false, GoValue.str "v1"),
  ("String2", some "-", true, false, GoValue.str "v2"),
  ("String3", some "-,", true, false, GoValue.str "v3"),
  ("String4", some "string4,omitempty", true, false, GoValue.str "v4"),
  ("String5", some ",", true, false, GoValue.str "v5"),
  ("String6", some ",omitempty", true, false, GoValue.str "v6"),
  ("N", some "n,omitempty", true, false, GoValue.int 7)]

/-- The same struct with zero values, so the omitempty fields drop. -/
def tagDemoZero : GoValue := GoValue.struct [
  ("String1", some "string1", true, false, GoValue.str ""),
  ("String2", some "-", true, false, GoValue.str ""),
  ("String3", some "-,", true, false, GoValue.str ""),
  ("String4", some "string4,omitempty", true, false, GoValue.str ""),
  ("String5", some ",", true, false, GoValue.str ""),
  ("String6", some ",omitempty", true, false, GoValue.str ""),
  ("N", some "n,omitempty", true, false, GoValue.int 0)]

/-- Two levels of anonymous struct embedding without name overrides. -/
def embedDemo : GoValue := GoValue.struct [
  ("Outer", none, true, false, GoValue.str "o"),
  ("Mid", none, true, true, GoValue.struct [
    ("X", none, true, false, GoValue.int 1),
    ("Deep", none, true, true, GoValue.struct [
      ("Z", none, true, false, GoValue.int 3)])])]

/-- The C2 failing input: a struct whose first field is omitted by a "-"
tag, in Go `struct \x7b A int `json:"-"`; B int \x7d\x7b\x7d`. -/
def commaBugInput : GoValue := GoValue.struct [
  ("A", some "-", true, false, GoValue.int 0),
  ("B", none, true, false, GoValue.int 0)]

/-- C2 (bug evaluation): the tag directives — rename, "-" omission, "-,"
naming the field "-", omitempty on empty values, and recursive anonymous
inlining — all match the standard JSON encoding on these inputs, but the
comma before a field is keyed to the field's declaration index, so when
the first field is omitted the output starts with a stray comma
("\x7b,\"B\":0\x7d"), which is not the JSON encoding ("\x7b\"B\":0\x7d")
and not valid JSON at all. -/
theorem c2_struct_comma_bug :
    pretty commaBugInput = "\x7b,\"B\":0\x7d" ∧
    jsonEncodeValue commaBugInput = "\x7b\"B\":0\x7d" ∧
    pretty commaBugInput ≠ jsonEncodeValue commaBugInput ∧
    pretty tagDemoSet
      = "\x7b\"string1\":\"v1\",\"-\":\"v3\",\"string4\":\"v4\",\"String5\":\"v5\",\"String6\":\"v6\",\"n\":7\x7d" ∧
    pretty tagDemoSet = jsonEncodeValue tagDemoSet ∧
    pretty tagDemoZero = "\x7b\"string1\":\"\",\"-\":\"\",\"String5\":\"\"\x7d" ∧
    pretty tagDemoZero = jsonEncodeValue tagDemoZero ∧
    pretty embedDemo = "\x7b\"Outer\":\"o\",\"X\":1,\"Z\":3\x7d" ∧
    pretty embedDemo = jsonEncodeValue embedDemo := by
  refine ⟨by decide, by decide, by decide, by decide, by decide, by decide, by decide,
    by decide, by decide⟩

end Funcr
